import Mathlib

/-!
Verification development for `parse_cases.py`, an extractor of case-study
records (title, url, published_at) from an HTML document.  The Python source
is shallowly embedded: text is modelled as `List Char`, the parsed DOM as an
inductive tree, regular-expression matching as direct deterministic string
functions (each quantifier in the source regexes has a follow set disjoint
from its character class, so greedy matching without backtracking is exact),
and `datetime`-based calendar validation as an explicit predicate.
-/

/-! ## Text normalisation (`_clean_text`, `str.strip`, `str.lower`) -/

/-- Whitespace characters recognised by Python `str.strip()` / `re` `\s`,
restricted to the forms that can occur in this extractor's text domain
(ASCII whitespace plus the no-break and thin spaces the source handles). -/
def isPyWs (c : Char) : Bool :=
  [' ', '\t', '\n', '\r', '\x0b', '\x0c', ' ', ' '].contains c

/-- Strip `isPyWs` characters from both ends of a character list, modelling
Python `str.strip()`. -/
def stripBoth (l : List Char) : List Char :=
  ((l.dropWhile isPyWs).reverse.dropWhile isPyWs).reverse

/-- Per-character replacement used by `_clean_text`: no-break space and thin
space become ordinary spaces, the soft hyphen is deleted. -/
def cleanRepl (c : Char) : List Char :=
  if c = ' ' ∨ c = ' ' then [' ']
  else if c = '­' then []
  else [c]

/-- Model of `_clean_text`: apply the replacements, then strip both ends. -/
def cleanText (l : List Char) : List Char :=
  stripBoth (l.flatMap cleanRepl)

/-- Model of Python `str.lower()` on the Latin and Cyrillic letters that occur
in this extractor (ASCII `A`-`Z`, Cyrillic `А`-`Я` and `Ё`). -/
def lowerChar (c : Char) : Char :=
  if 'A' ≤ c ∧ c ≤ 'Z' then Char.ofNat (c.toNat + 32)
  else if 'А' ≤ c ∧ c ≤ 'Я' then Char.ofNat (c.toNat + 32)
  else if c = 'Ё' then 'ё'
  else c

/-- Lowercase a character list. -/
def pyLower (l : List Char) : List Char := l.map lowerChar

/-! ## Date parsing (`normalize_date` and its regular expressions) -/

/-- Numeric value of an ASCII digit character. -/
def digitVal (c : Char) : Nat := c.toNat - 48

/-- Greedy match of `\d{1,2}` at the head of the input, returning the integer
value and the rest.  In `DOT_DATE_RE` and `RUSSIAN_TEXT_DATE_RE` the quantifier
is always followed by a separator or whitespace class disjoint from the digits,
so this backtracking-free reading is exactly the regex semantics. -/
def parseD12 : List Char → Option (Nat × List Char)
  | [] => none
  | [c] => if c.isDigit then some (digitVal c, []) else none
  | c1 :: c2 :: rest =>
    if c1.isDigit then
      if c2.isDigit then some (digitVal c1 * 10 + digitVal c2, rest)
      else some (digitVal c1, c2 :: rest)
    else none

/-- Match of `\d{4}` at the head of the input. -/
def parseD4 : List Char → Option (Nat × List Char)
  | a :: b :: c :: d :: rest =>
    if a.isDigit ∧ b.isDigit ∧ c.isDigit ∧ d.isDigit then
      some (((digitVal a * 10 + digitVal b) * 10 + digitVal c) * 10 + digitVal d, rest)
    else none
  | _ => none

/-- Model of `ISO_DATE_RE` (`^(\d{4})-(\d{2})-(\d{2})`) applied via `search`:
the anchored pattern matches only at the start.  On success the source
re-emits the three captured groups joined by hyphens, which is exactly the
first ten characters of the input; that string is returned here. -/
def isoMatch : List Char → Option String
  | y1 :: y2 :: y3 :: y4 :: '-' :: m1 :: m2 :: '-' :: d1 :: d2 :: _ =>
    if y1.isDigit ∧ y2.isDigit ∧ y3.isDigit ∧ y4.isDigit ∧ m1.isDigit ∧ m2.isDigit
        ∧ d1.isDigit ∧ d2.isDigit then
      some (String.mk [y1, y2, y3, y4, '-', m1, m2, '-', d1, d2])
    else none
  | _ => none

/-- Separator class `[./]` of `DOT_DATE_RE`. -/
def isSep (c : Char) : Bool := c == '.' || c == '/'

/-- Model of `DOT_DATE_RE` (`^(\d{1,2})[./](\d{1,2})[./](\d{4})`): day, month
and year as integers, matched at the start of the input, trailing content
unconstrained. -/
def dotMatch (cs : List Char) : Option (Nat × Nat × Nat) :=
  match parseD12 cs with
  | some (d, s1 :: r2) =>
    if isSep s1 then
      match parseD12 r2 with
      | some (m, s2 :: r4) =>
        if isSep s2 then
          match parseD4 r4 with
          | some (y, _) => some (d, m, y)
          | none => none
        else none
      | _ => none
    else none
  | _ => none

/-- Character class `[А-Яа-яёЁ.\-]` of `RUSSIAN_TEXT_DATE_RE` (the class
already contains both letter cases, so `re.IGNORECASE` adds nothing here). -/
def monthClassChar (c : Char) : Bool :=
  ('А' ≤ c && c ≤ 'Я') || ('а' ≤ c && c ≤ 'я') || c == 'ё' || c == 'Ё' || c == '.' || c == '-'

/-- Match `\s+` at the head: require at least one whitespace character and
consume the maximal run. -/
def takeWs1 : List Char → Option (List Char)
  | [] => none
  | c :: rest => if isPyWs c then some (rest.dropWhile isPyWs) else none

/-- Match `[А-Яа-яёЁ.\-]+` at the head: require at least one class character
and consume the maximal run, returning the captured word and the rest. -/
def takeMonth1 : List Char → Option (List Char × List Char)
  | [] => none
  | c :: rest =>
    if monthClassChar c then
      some (c :: rest.takeWhile monthClassChar, rest.dropWhile monthClassChar)
    else none

/-- Attempt `RUSSIAN_TEXT_DATE_RE` at one position: `\d{1,2}`, `\s+`, month
word, `\s+`, `\d{4}`.  The optional trailing year-suffix group of the source
regex constrains nothing captured, so it is not modelled.  Returns the day,
the raw month word and the year. -/
def ruMatchAt (cs : List Char) : Option (Nat × List Char × Nat) :=
  match parseD12 cs with
  | none => none
  | some (d, r1) =>
    match takeWs1 r1 with
    | none => none
    | some r2 =>
      match takeMonth1 r2 with
      | none => none
      | some (w, r3) =>
        match takeWs1 r3 with
        | none => none
        | some r4 =>
          match parseD4 r4 with
          | none => none
          | some (y, _) => some (d, w, y)

/-- Model of `RUSSIAN_TEXT_DATE_RE.search`: the pattern is unanchored, so every
position is tried left to right and the first successful match wins. -/
def ruSearch : List Char → Option (Nat × List Char × Nat)
  | [] => none
  | c :: rest =>
    match ruMatchAt (c :: rest) with
    | some r => some r
    | none => ruSearch rest

/-- Month aliases table `MONTH_ALIASES` of the source, verbatim. -/
def MONTH_ALIASES : List (Nat × List String) :=
  [(1, ["январь", "января", "янв"]),
   (2, ["февраль", "февраля", "фев", "февр"]),
   (3, ["март", "марта", "мар"]),
   (4, ["апрель", "апреля", "апр"]),
   (5, ["май", "мая"]),
   (6, ["июнь", "июня", "июн"]),
   (7, ["июль", "июля", "июл"]),
   (8, ["август", "августа", "авг"]),
   (9, ["сентябрь", "сентября", "сен", "сент"]),
   (10, ["октябрь", "октября", "окт"]),
   (11, ["ноябрь", "ноября", "ноя", "нояб"]),
   (12, ["декабрь", "декабря", "дек"])]

/-- Strip all trailing dots, modelling Python `str.rstrip(".")`. -/
def rstripDot (l : List Char) : List Char :=
  (l.reverse.dropWhile (fun c => c == '.')).reverse

/-- Map `ё` to `е`, the replacement done by `_normalize_month_token`. -/
def yoToE (c : Char) : Char := if c = 'ё' then 'е' else c

/-- Model of `_normalize_month_token`: strip, lowercase, `ё` to `е`, strip
trailing dots. -/
def normalize_month_token (l : List Char) : List Char :=
  rstripDot ((pyLower (stripBoth l)).map yoToE)

/-- Model of `_build_month_mapping` flattened into an association list: every
alias, normalised, paired with its month number (alias keys are pairwise
distinct, so first-match lookup agrees with the Python dict). -/
def month_table : List (String × Nat) :=
  MONTH_ALIASES.flatMap
    (fun p => p.2.map (fun a => (String.mk (normalize_month_token a.data), p.1)))

/-- Model of the `MONTHS_RU` dictionary lookup (`dict.get`). -/
def MONTHS_RU (key : String) : Option Nat :=
  (month_table.find? (fun p => p.1 == key)).map (fun p => p.2)

/-- Gregorian leap-year test, as used by `datetime`. -/
def isLeap (y : Nat) : Bool :=
  (y % 4 == 0 && y % 100 != 0) || y % 400 == 0

/-- Number of days in a month of the proleptic Gregorian calendar. -/
def daysInMonth (y m : Nat) : Nat :=
  if m == 2 then (if isLeap y then 29 else 28)
  else if m == 4 || m == 6 || m == 9 || m == 11 then 30
  else 31

/-- Validity of a calendar date exactly as `datetime(year, month, day)`
decides it: year within `MINYEAR..MAXYEAR`, month `1..12`, day within the
month (otherwise the constructor raises `ValueError`, which the source turns
into a `None` result). -/
def isValidDate (y m d : Nat) : Bool :=
  decide (1 ≤ y) && decide (y ≤ 9999) && decide (1 ≤ m) && decide (m ≤ 12)
    && decide (1 ≤ d) && decide (d ≤ daysInMonth y m)

/-- Decimal digit character for `n % 10`-style values. -/
def digitChar (n : Nat) : Char :=
  if n = 0 then '0' else if n = 1 then '1' else if n = 2 then '2' else if n = 3 then '3'
  else if n = 4 then '4' else if n = 5 then '5' else if n = 6 then '6' else if n = 7 then '7'
  else if n = 8 then '8' else '9'

/-- Four-digit zero-padded rendering of a year. -/
def pad4 (n : Nat) : List Char :=
  [digitChar (n / 1000 % 10), digitChar (n / 100 % 10), digitChar (n / 10 % 10), digitChar (n % 10)]

/-- Two-digit zero-padded rendering of a month or day. -/
def pad2 (n : Nat) : List Char :=
  [digitChar (n / 10 % 10), digitChar (n % 10)]

/-- Model of `datetime(...).strftime("%Y-%m-%d")`: the zero-padded canonical
`YYYY-MM-DD` rendering documented for `strftime`. -/
def formatDate (y m d : Nat) : String :=
  String.mk (pad4 y ++ '-' :: pad2 m ++ '-' :: pad2 d)

/-- Model of `normalize_date`: empty input fails, the input is cleaned, then
the three grammars are tried in order; a structural match that fails calendar
validation returns `none` without trying later grammars. -/
def normalize_date (raw : String) : Option String :=
  if raw.data.isEmpty then none
  else if (cleanText raw.data).isEmpty then none
  else
    match isoMatch (cleanText raw.data) with
    | some r => some r
    | none =>
      match dotMatch (cleanText raw.data) with
      | some (d, m, y) => if isValidDate y m d then some (formatDate y m d) else none
      | none =>
        match ruSearch (cleanText raw.data) with
        | some (d, w, y) =>
          match MONTHS_RU (String.mk (normalize_month_token w)) with
          | some m => if isValidDate y m d then some (formatDate y m d) else none
          | none => none
        | none => none

/-! ## DOM model

The HTML parse tree produced by BeautifulSoup is modelled as a tree of
elements and text nodes (a mutual inductive, so that all traversals are
structurally recursive and kernel-computable).  Attribute values are either
plain strings or token lists (BeautifulSoup represents `class` as a list of
tokens), matching what `_iter_strings` distinguishes. -/

/-- A BeautifulSoup attribute value: a plain string or a list of strings. -/
inductive AttrValue where
  | str (s : String)
  | list (l : List String)
deriving DecidableEq, Repr

mutual

/-- A node of the parse tree: a text node or an element with a tag name,
attributes and children. -/
inductive Node where
  | text (s : String)
  | elem (tag : String) (attrs : List (String × AttrValue)) (children : NodeList)
deriving Repr

/-- A forest of sibling nodes (the children of an element, or the top-level
nodes of a document). -/
inductive NodeList where
  | nil
  | cons (n : Node) (ns : NodeList)
deriving Repr

end

/-- Build a `NodeList` from an ordinary list. -/
def forest : List Node → NodeList
  | [] => .nil
  | n :: ns => .cons n (forest ns)

/-- Tag name of a node (text nodes have none). -/
def Node.tagName : Node → String
  | .text _ => ""
  | .elem t _ _ => t

/-- Children of a node. -/
def Node.children : Node → NodeList
  | .text _ => .nil
  | .elem _ _ cs => cs

/-- Attribute lookup, modelling `tag.get(key)`. -/
def Node.getAttr : Node → String → Option AttrValue
  | .text _, _ => none
  | .elem _ attrs _, key => (attrs.find? (fun p => p.1 == key)).map (fun p => p.2)

/-- Model of `_iter_strings` collected into a list: a plain string yields
itself, a list yields its elements, a missing attribute yields nothing. -/
def iter_strings : Option AttrValue → List String
  | some (.str s) => [s]
  | some (.list l) => l
  | none => []

/-- Model of `_first_string`. -/
def first_string (v : Option AttrValue) : Option String :=
  (iter_strings v).head?

/-- Document-order traversal of the element descendants of a forest, each
paired with a flag recording whether some strict ancestor (within the
traversed forest or above it, via `inBtn`) is a `button` element.  The flag
models `candidate.find_parent("button")`, which climbs through the whole
document. -/
def childrenCtx : Bool → NodeList → List (Node × Bool)
  | _, .nil => []
  | inBtn, .cons (Node.text _) rest => childrenCtx inBtn rest
  | inBtn, .cons (Node.elem t a cs) rest =>
    (Node.elem t a cs, inBtn)
      :: (childrenCtx (inBtn || t == "button") cs ++ childrenCtx inBtn rest)

/-- Element descendants of a node, in document order (the node itself
excluded, as in BeautifulSoup `find_all` / CSS selection scoped to a tag). -/
def descendants (n : Node) : List Node :=
  (childrenCtx false (Node.children n)).map Prod.fst

/-- Text-node strings of a forest in document order. -/
def forestTexts : NodeList → List (List Char)
  | .nil => []
  | .cons (Node.text s) rest => s.data :: forestTexts rest
  | .cons (Node.elem _ _ cs) rest => forestTexts cs ++ forestTexts rest

/-- Strings contained in a node's subtree, modelling `tag.strings`. -/
def nodeTexts (n : Node) : List (List Char) :=
  forestTexts (Node.children n)

/-- Join character lists with a single space between them. -/
def joinSpace : List (List Char) → List Char
  | [] => []
  | [l] => l
  | l :: ls => l ++ ' ' :: joinSpace ls

/-- Model of `tag.get_text()`: concatenation of all subtree strings. -/
def getTextJoined (n : Node) : List Char := (nodeTexts n).flatten

/-- Model of `tag.get_text(" ", strip=True)`: each subtree string stripped,
empty results dropped, the rest joined with single spaces. -/
def getTextSepStrip (n : Node) : String :=
  String.mk (joinSpace ((nodeTexts n).map stripBoth |>.filter (fun l => !l.isEmpty)))

/-- Substring occurrence test on character lists. -/
def subStr (sub : List Char) : List Char → Bool
  | [] => sub.isEmpty
  | c :: rest => sub.isPrefixOf (c :: rest) || subStr sub rest

/-- Substring occurrence test on strings, modelling Python `in`. -/
def containsSub (hay sub : String) : Bool := subStr sub.data hay.data

/-- Serialised attribute value as CSS attribute selectors compare it: token
lists are joined with spaces. -/
def attrString : AttrValue → String
  | .str s => s
  | .list l => String.mk (joinSpace (l.map String.data))

/-- Class-token list of a node, as BeautifulSoup exposes `class`. -/
def classTokens : Option AttrValue → List String
  | some (.str s) => [s]
  | some (.list l) => l
  | none => []

/-- The CSS selector shapes used by the source. -/
inductive Selector where
  | attrEq (key value : String)
  | classToken (tok : String)
  | attrContains (key sub : String)
  | tagSel (t : String)
  | tagAttrContains (t key sub : String)
deriving DecidableEq, Repr

/-- Whether a node matches a selector. -/
def Selector.matchesNode : Selector → Node → Bool
  | .attrEq key v, n =>
    match Node.getAttr n key with
    | some av => attrString av == v
    | none => false
  | .classToken tok, n => (classTokens (Node.getAttr n "class")).contains tok
  | .attrContains key sub, n =>
    match Node.getAttr n key with
    | some av => containsSub (attrString av) sub
    | none => false
  | .tagSel t, n => Node.tagName n == t
  | .tagAttrContains t key sub, n =>
    Node.tagName n == t &&
      (match Node.getAttr n key with
       | some av => containsSub (attrString av) sub
       | none => false)

/-- Model of `soup.select(sel)` on a whole document (a forest of top-level
nodes), keeping the button-ancestry flag of each match. -/
def selectDoc (sel : Selector) (doc : NodeList) : List (Node × Bool) :=
  (childrenCtx false doc).filter (fun p => Selector.matchesNode sel p.1)

/-- Model of `container.select_one(sel)`: first matching descendant in
document order. -/
def selectOneIn (container : Node) (sel : Selector) : Option Node :=
  ((descendants container).filter (Selector.matchesNode sel)).head?

/-! ## Title and date field extraction -/

/-- The `GENERIC_TITLE_STRINGS` blocklist of the source, verbatim (a set of
Russian boilerplate call-to-action phrases). -/
def GENERIC_TITLE_STRINGS : List String :=
  ["подробнее", "читать кейс", "читать кейс полностью", "читать подробнее", "узнать больше"]

/-- Model of `_normalize_title_text`: `None` or empty input fails, the text is
cleaned, an empty result fails, a result whose lowercase form is in the
blocklist fails, otherwise the cleaned text is returned. -/
def normalize_title_text (v : Option String) : Option String :=
  match v with
  | none => none
  | some s =>
    if s.data.isEmpty then none
    else if (cleanText s.data).isEmpty then none
    else if GENERIC_TITLE_STRINGS.contains (String.mk (pyLower (cleanText s.data))) then none
    else some (String.mk (cleanText s.data))

/-- The selector cascade of `extract_title`, in source order. -/
def title_selectors : List Selector :=
  [.attrEq "data-testid" "case-card-title",
   .attrEq "itemprop" "headline",
   .attrEq "itemprop" "name",
   .attrContains "class" "case-card_title",
   .attrContains "class" "CaseCard__title",
   .classToken "CaseCard__title",
   .classToken "vkuiHeadline",
   .tagSel "h1",
   .tagSel "h3",
   .tagSel "h2"]

/-- First stage of `extract_title`: try each selector in order; a selector
whose match normalises to an accepted title wins, otherwise the loop
continues with the next selector. -/
def titleFromSelectors (container : Node) : List Selector → Option String
  | [] => none
  | sel :: rest =>
    match selectOneIn container sel with
    | some cand =>
      match normalize_title_text (some (getTextSepStrip cand)) with
      | some t => some t
      | none => titleFromSelectors container rest
    | none => titleFromSelectors container rest

/-- The link attributes consulted by the second stage of `extract_title`. -/
def title_attrs : List String := ["title", "aria-label", "aria-labelledby", "data-title"]

/-- Second stage of `extract_title`: textual attributes of the link element. -/
def titleFromAttrs (link : Node) : List String → Option String
  | [] => none
  | a :: rest =>
    match normalize_title_text (first_string (Node.getAttr link a)) with
    | some t => some t
    | none => titleFromAttrs link rest

/-- Heading tag names accepted by the third stage of `extract_title`. -/
def headingTags : List String := ["h1", "h2", "h3", "h4"]

/-- Third stage of `extract_title`: scan all descendants (with their
button-ancestry flags); skip buttons, nodes inside buttons and nodes with
ARIA role `button`; accept heading tags and nodes carrying `title` or
`headline` tokens in their class string or `title` in their test id. -/
def titleFromCandidates : List (Node × Bool) → Option String
  | [] => none
  | (cand, inBtn) :: rest =>
    if Node.tagName cand == "button" || inBtn then titleFromCandidates rest
    else if String.mk (pyLower ((first_string (Node.getAttr cand "role")).getD "").data)
        == "button" then titleFromCandidates rest
    else if headingTags.contains (Node.tagName cand)
        || containsSub (String.mk (pyLower (joinSpace
              ((iter_strings (Node.getAttr cand "class")).map String.data)))) "title"
        || containsSub (String.mk (pyLower (joinSpace
              ((iter_strings (Node.getAttr cand "class")).map String.data)))) "headline"
        || containsSub (String.mk (pyLower
              ((first_string (Node.getAttr cand "data-testid")).getD "").data)) "title" then
      match normalize_title_text (some (getTextSepStrip cand)) with
      | some t => some t
      | none => titleFromCandidates rest
    else titleFromCandidates rest

/-- Model of `extract_title`: the three stages in strict priority order.
`underBtn` records whether the container itself sits below a `button`
element in the document, so that `find_parent("button")` is modelled
correctly for the container's descendants. -/
def extract_title (underBtn : Bool) (container link : Node) : Option String :=
  match titleFromSelectors container title_selectors with
  | some t => some t
  | none =>
    match titleFromAttrs link title_attrs with
    | some t => some t
    | none =>
      titleFromCandidates
        (childrenCtx (underBtn || Node.tagName container == "button") (Node.children container))

/-- Candidates contributed by one `time` element: every string of its
`datetime` attribute (cleaned, non-empty), then its display text (cleaned,
non-empty). -/
def timeCandidates (t : Node) : List String :=
  ((iter_strings (Node.getAttr t "datetime")).filterMap
      (fun s => if (cleanText s.data).isEmpty then none else some (String.mk (cleanText s.data))))
    ++ (if (cleanText (getTextJoined t)).isEmpty then []
        else [String.mk (cleanText (getTextJoined t))])

/-- Candidates from all `time` descendants, in document order. -/
def timeCandidatesAll : List Node → List String
  | [] => []
  | t :: rest => timeCandidates t ++ timeCandidatesAll rest

/-- Second scan of `iter_date_texts`: descendants whose lowercase class string
or test id contains the substring `date` contribute their cleaned text. -/
def dateClassCandidates : List Node → List String
  | [] => []
  | tg :: rest =>
    if containsSub (String.mk (pyLower (joinSpace
          ((iter_strings (Node.getAttr tg "class")).map String.data)))) "date"
        || containsSub (String.mk (pyLower
          ((first_string (Node.getAttr tg "data-testid")).getD "").data)) "date" then
      if (cleanText (getTextJoined tg)).isEmpty then dateClassCandidates rest
      else String.mk (cleanText (getTextJoined tg)) :: dateClassCandidates rest
    else dateClassCandidates rest

/-- Model of `iter_date_texts`: `time`-element candidates first (attribute
before display text), then `date`-class candidates. -/
def iter_date_texts (container : Node) : List String :=
  timeCandidatesAll ((descendants container).filter (fun c => Node.tagName c == "time"))
    ++ dateClassCandidates (descendants container)

/-- First candidate that `normalize_date` accepts. -/
def firstNormalizedDate : List String → Option String
  | [] => none
  | s :: rest =>
    match normalize_date s with
    | some d => some d
    | none => firstNormalizedDate rest

/-- Model of `extract_date`. -/
def extract_date (container : Node) : Option String :=
  firstNormalizedDate (iter_date_texts container)

/-! ## URL resolution and case assembly -/

/-- Split a character list at the first occurrence of `://`, returning the
part before it and the part after it. -/
def splitSchemeRest : List Char → Option (List Char × List Char)
  | [] => none
  | ':' :: '/' :: '/' :: rest => some ([], rest)
  | c :: rest =>
    match splitSchemeRest rest with
    | some (s, r) => some (c :: s, r)
    | none => none

/-- Directory part of a path (through the last slash; `/` when the path has
no slash). -/
def dirOf (path : List Char) : List Char :=
  match path.reverse.dropWhile (fun c => c != '/') with
  | [] => ['/']
  | r => r.reverse

/-- Model of `urllib.parse.urljoin` for the URL shapes this extractor
resolves: an absolute `href` wins, a `//`-prefixed one keeps the base scheme,
a `/`-prefixed one keeps scheme and host, anything else replaces the last
path segment of the base. -/
def urljoin (base href : String) : String :=
  if href.data.isEmpty then base
  else if (splitSchemeRest href.data).isSome then href
  else
    match splitSchemeRest base.data with
    | none => href
    | some (scheme, rest) =>
      match href.data with
      | '/' :: '/' :: _ => String.mk (scheme ++ ':' :: href.data)
      | '/' :: _ =>
        String.mk (scheme ++ ':' :: '/' :: '/' :: rest.takeWhile (fun c => c != '/') ++ href.data)
      | _ =>
        String.mk (scheme ++ ':' :: '/' :: '/' :: rest.takeWhile (fun c => c != '/')
          ++ dirOf (rest.dropWhile (fun c => c != '/')) ++ href.data)

/-- The hardcoded default base URL of the source. -/
def DEFAULT_BASE_URL : String := "https://ads.vk.com"

/-- The card-locator selector cascade of `find_case_nodes`, in source order:
the test-identifier attribute, the known CSS class, anchors whose target
contains `/cases/`. -/
def caseSelectors : List Selector :=
  [.attrEq "data-testid" "case-card",
   .classToken "CaseCard",
   .tagAttrContains "a" "href" "/cases/"]

/-- First selector of the cascade that yields at least one match wins; if
none matches the result is empty. -/
def firstNonemptySelect (doc : NodeList) : List Selector → List (Node × Bool)
  | [] => []
  | sel :: rest =>
    if (selectDoc sel doc).isEmpty then firstNonemptySelect doc rest
    else selectDoc sel doc

/-- Model of `find_case_nodes` (each located container carries its
button-ancestry flag, consumed by `extract_title`). -/
def find_case_nodes (doc : NodeList) : List (Node × Bool) :=
  firstNonemptySelect doc caseSelectors

/-- The output record of the extractor: title, absolute URL and optional
canonical publication date. -/
structure CaseRec where
  title : String
  url : String
  published_at : Option String
deriving DecidableEq, Repr

/-- Link resolution of `extract_cases`: the container itself when it is an
anchor with a non-empty `href`, otherwise its first descendant anchor
carrying an `href` attribute. -/
def resolveLink (n : Node) : Option Node :=
  if Node.tagName n == "a" && !(((first_string (Node.getAttr n "href")).getD "").isEmpty)
  then some n
  else (descendants n).find? (fun c => Node.tagName c == "a" && (Node.getAttr c "href").isSome)

/-- The usable `href` of a link element: `None` and the empty string are both
rejected (Python truthiness). -/
def getHref (link : Node) : Option String :=
  match first_string (Node.getAttr link "href") with
  | none => none
  | some h => if h.data.isEmpty then none else some h

/-- The per-container loop of `extract_cases`: resolve the link (skip on
failure), resolve the absolute URL, skip already-seen URLs, recover the title
(skip on failure), emit the record and mark the URL as seen. -/
def extractLoop (base : String) : List (Node × Bool) → List String → List CaseRec
  | [], _ => []
  | (node, underBtn) :: rest, seen =>
    match resolveLink node with
    | none => extractLoop base rest seen
    | some link =>
      match getHref link with
      | none => extractLoop base rest seen
      | some href =>
        if seen.contains (urljoin base href) then extractLoop base rest seen
        else
          match extract_title underBtn node link with
          | none => extractLoop base rest seen
          | some title =>
            { title := title, url := urljoin base href, published_at := extract_date node }
              :: extractLoop base rest (urljoin base href :: seen)

/-- Model of `extract_cases`: locate the containers and run the assembly loop
with an initially empty seen set. -/
def extract_cases (doc : NodeList) (base : String) : List CaseRec :=
  extractLoop base (find_case_nodes doc) []

/-- All records the containers would contribute before URL deduplication:
every container that passes link resolution and title recovery yields one
candidate record, in document order. -/
def caseCandidates (base : String) : List (Node × Bool) → List CaseRec
  | [] => []
  | (node, underBtn) :: rest =>
    match resolveLink node with
    | none => caseCandidates base rest
    | some link =>
      match getHref link with
      | none => caseCandidates base rest
      | some href =>
        match extract_title underBtn node link with
        | none => caseCandidates base rest
        | some title =>
          { title := title, url := urljoin base href, published_at := extract_date node }
            :: caseCandidates base rest

/-- Keep the first record for each URL, dropping records whose URL was
already kept (or is in the initial seen set). -/
def dedupByUrl (seen : List String) : List CaseRec → List CaseRec
  | [] => []
  | r :: rs =>
    if seen.contains r.url then dedupByUrl seen rs
    else r :: dedupByUrl (r.url :: seen) rs

/-! ## Concrete documents used by scenario theorems and witnesses -/

/-- A card whose only title-like text is the English string `Learn more`
(a `title`-classed div; no heading, no microdata). -/
def learnMoreDoc : NodeList := forest [
  Node.elem "div" [("data-testid", AttrValue.str "case-card")] (forest [
    Node.elem "a" [("href", AttrValue.str "/cases/demo")] NodeList.nil,
    Node.elem "div" [("class", AttrValue.list ["promo-title"])] (forest [Node.text "Learn more"])])]

/-- The same card with the Russian blocklisted phrase as its only title-like
text. -/
def uznatDoc : NodeList := forest [
  Node.elem "div" [("data-testid", AttrValue.str "case-card")] (forest [
    Node.elem "a" [("href", AttrValue.str "/cases/demo")] NodeList.nil,
    Node.elem "div" [("class", AttrValue.list ["promo-title"])] (forest [Node.text "Узнать больше"])])]

/-- A card whose only heading is a blocklisted phrase: it resolves a link but
recovers no title, so it emits nothing and reserves no URL. -/
def dupCard1 : Node :=
  Node.elem "div" [("data-testid", AttrValue.str "case-card")] (forest [
    Node.elem "a" [("href", AttrValue.str "/cases/x")] NodeList.nil,
    Node.elem "h3" [] (forest [Node.text "Подробнее"])])

/-- A later card resolving to the same URL as `dupCard1`, with a real title. -/
def dupCard2 : Node :=
  Node.elem "div" [("data-testid", AttrValue.str "case-card")] (forest [
    Node.elem "a" [("href", AttrValue.str "/cases/x")] NodeList.nil,
    Node.elem "h3" [] (forest [Node.text "Настоящий кейс"])])

/-- A minimal well-formed card with a heading title and no date markup. -/
def sampleDoc : NodeList := forest [
  Node.elem "div" [("data-testid", AttrValue.str "case-card")] (forest [
    Node.elem "a" [("href", AttrValue.str "/cases/example-case")] (forest [
      Node.elem "h3" [] (forest [Node.text "Сборный кейс"])])])]

/-- A document with no `data-testid` card markers but a `CaseCard`-classed
container, exercising the second selector of the cascade. -/
def classDoc : NodeList := forest [
  Node.elem "div" [("class", AttrValue.list ["CaseCard"])] (forest [
    Node.elem "a" [("href", AttrValue.str "/cases/y")] NodeList.nil,
    Node.elem "h2" [] (forest [Node.text "Кейс два"])])]

/-! ## Lemmas about the date parser -/

/-- A `DOT_DATE_RE` separator is never a digit. -/
theorem digit_false_of_sep {c : Char} (h : isSep c = true) : c.isDigit = false := by
  unfold isSep at h
  rcases (Bool.or_eq_true _ _).mp h with h | h
  · rw [eq_of_beq h]; decide
  · rw [eq_of_beq h]; decide

/-- The ISO and dotted grammars are structurally disjoint: a dotted match has
a separator at position one or two, where the ISO pattern requires a digit.
Hence an input reaching the dotted branch never matched the ISO branch. -/
theorem iso_none_of_dot {cs : List Char} {t : Nat × Nat × Nat}
    (h : dotMatch cs = some t) : isoMatch cs = none := by
  rcases cs with _ | ⟨c0, _ | ⟨c1, rest⟩⟩
  · simp [dotMatch, parseD12] at h
  · by_cases hc : c0.isDigit = true <;> simp [dotMatch, parseD12, hc] at h
  · by_cases h0 : c0.isDigit = true
    · by_cases h1 : c1.isDigit = true
      · rcases rest with _ | ⟨c2, rest2⟩
        · simp [dotMatch, parseD12, h0, h1] at h
        · by_cases h2 : isSep c2 = true
          · have hnd : c2.isDigit = false := digit_false_of_sep h2
            unfold isoMatch
            split
            · simp_all
            · rfl
          · simp [dotMatch, parseD12, h0, h1, h2] at h
      · by_cases hs : isSep c1 = true
        · have hnd : c1.isDigit = false := digit_false_of_sep hs
          unfold isoMatch
          split
          · simp_all
          · rfl
        · simp [dotMatch, parseD12, h0, h1, hs] at h
    · simp [dotMatch, parseD12, h0] at h

/-- `digitChar` always yields a digit character untouched by text cleaning. -/
theorem digitChar_good (n : Nat) :
    (digitChar n).isDigit = true ∧ cleanRepl (digitChar n) = [digitChar n]
      ∧ isPyWs (digitChar n) = false := by
  unfold digitChar
  split_ifs <;> refine ⟨by decide, by decide, by decide⟩

/-- Dropping while a predicate is everywhere false changes nothing. -/
theorem dropWhile_eq_self_of_none {p : Char → Bool} {l : List Char}
    (h : ∀ c ∈ l, p c = false) : l.dropWhile p = l := by
  cases l with
  | nil => rfl
  | cons a t => simp [List.dropWhile_cons, h a (by simp)]

/-- Stripping a list with no whitespace characters changes nothing. -/
theorem stripBoth_eq_self {l : List Char} (h : ∀ c ∈ l, isPyWs c = false) :
    stripBoth l = l := by
  unfold stripBoth
  rw [dropWhile_eq_self_of_none h,
    dropWhile_eq_self_of_none (fun c hc => h c (List.mem_reverse.mp hc)),
    List.reverse_reverse]

/-- The character replacements of `_clean_text` fix lists they do not touch. -/
theorem flatMap_cleanRepl_id {l : List Char} (h : ∀ c ∈ l, cleanRepl c = [c]) :
    l.flatMap cleanRepl = l := by
  induction l with
  | nil => rfl
  | cons a t ih =>
    rw [List.flatMap_cons, h a (by simp), ih (fun c hc => h c (by simp [hc]))]
    rfl

/-- `_clean_text` is the identity on text without special or edge whitespace
characters. -/
theorem cleanText_eq_self {l : List Char}
    (h : ∀ c ∈ l, cleanRepl c = [c] ∧ isPyWs c = false) : cleanText l = l := by
  unfold cleanText
  rw [flatMap_cleanRepl_id (fun c hc => (h c hc).1),
    stripBoth_eq_self (fun c hc => (h c hc).2)]

/-- Every character of a formatted date is a digit or a hyphen, so cleaning
leaves the formatted string unchanged. -/
theorem formatDate_chars_good (y m d : Nat) :
    ∀ c ∈ (formatDate y m d).data, cleanRepl c = [c] ∧ isPyWs c = false := by
  intro c hc
  simp [formatDate, pad4, pad2] at hc
  rcases hc with rfl | rfl | rfl | rfl | rfl | rfl | rfl | rfl | rfl | rfl | rfl
  all_goals first
    | exact ⟨(digitChar_good _).2.1, (digitChar_good _).2.2⟩
    | exact ⟨by decide, by decide⟩

/-! ## Lemmas about title recovery and case assembly -/

/-- Every accepted title is non-empty and its lowercase form avoids the
blocklist, by construction of `_normalize_title_text`. -/
theorem normalize_title_ok {v : Option String} {t : String}
    (h : normalize_title_text v = some t) :
    t ≠ "" ∧ GENERIC_TITLE_STRINGS.contains (String.mk (pyLower t.data)) = false := by
  rcases v with _ | s
  · simp [normalize_title_text] at h
  · unfold normalize_title_text at h
    dsimp only at h
    split_ifs at h with h1 h2 h3
    injection h with h
    subst h
    constructor
    · intro hteq
      have hd : cleanText s.data = [] := congrArg String.data hteq
      exact h2 (by simp [hd])
    · simpa using h3

/-- Every title produced by the selector cascade passed through
`_normalize_title_text`. -/
theorem titleFromSelectors_ok {container : Node} :
    ∀ {sels : List Selector} {t : String},
      titleFromSelectors container sels = some t →
      ∃ v, normalize_title_text v = some t := by
  intro sels
  induction sels with
  | nil => intro t h; simp [titleFromSelectors] at h
  | cons sel rest ih =>
    intro t h
    unfold titleFromSelectors at h
    cases hs : selectOneIn container sel with
    | none => simp only [hs] at h; exact ih h
    | some cand =>
      simp only [hs] at h
      cases hn : normalize_title_text (some (getTextSepStrip cand)) with
      | none => simp only [hn] at h; exact ih h
      | some t2 =>
        simp only [hn] at h
        injection h with h
        subst h
        exact ⟨_, hn⟩

/-- Every title produced by the link-attribute fallback passed through
`_normalize_title_text`. -/
theorem titleFromAttrs_ok {link : Node} :
    ∀ {attrs : List String} {t : String},
      titleFromAttrs link attrs = some t →
      ∃ v, normalize_title_text v = some t := by
  intro attrs
  induction attrs with
  | nil => intro t h; simp [titleFromAttrs] at h
  | cons a rest ih =>
    intro t h
    unfold titleFromAttrs at h
    cases hn : normalize_title_text (first_string (Node.getAttr link a)) with
    | none => simp only [hn] at h; exact ih h
    | some t2 =>
      simp only [hn] at h
      injection h with h
      subst h
      exact ⟨_, hn⟩

/-- Every title produced by the descendant scan passed through
`_normalize_title_text`. -/
theorem titleFromCandidates_ok :
    ∀ {cands : List (Node × Bool)} {t : String},
      titleFromCandidates cands = some t →
      ∃ v, normalize_title_text v = some t := by
  intro cands
  induction cands with
  | nil => intro t h; simp [titleFromCandidates] at h
  | cons p rest ih =>
    intro t h
    obtain ⟨cand, inBtn⟩ := p
    unfold titleFromCandidates at h
    split_ifs at h
    · exact ih h
    · exact ih h
    · cases hn : normalize_title_text (some (getTextSepStrip cand)) with
      | none => simp only [hn] at h; exact ih h
      | some t2 =>
        simp only [hn] at h
        injection h with h
        subst h
        exact ⟨_, hn⟩
    · exact ih h

/-- Every title returned by `extract_title` passed through
`_normalize_title_text`. -/
theorem extract_title_ok {u : Bool} {container link : Node} {t : String}
    (h : extract_title u container link = some t) :
    ∃ v, normalize_title_text v = some t := by
  unfold extract_title at h
  cases h1 : titleFromSelectors container title_selectors with
  | some t2 =>
    simp only [h1] at h
    injection h with h
    subst h
    exact titleFromSelectors_ok h1
  | none =>
    simp only [h1] at h
    cases h2 : titleFromAttrs link title_attrs with
    | some t2 =>
      simp only [h2] at h
      injection h with h
      subst h
      exact titleFromAttrs_ok h2
    | none =>
      simp only [h2] at h
      exact titleFromCandidates_ok h

/-- The title of every emitted record was returned by `extract_title`. -/
theorem mem_extractLoop_title {base : String} :
    ∀ {nodes : List (Node × Bool)} {seen : List String} {r : CaseRec},
      r ∈ extractLoop base nodes seen →
      ∃ u c l, extract_title u c l = some r.title := by
  intro nodes
  induction nodes with
  | nil => intro seen r h; simp [extractLoop] at h
  | cons p rest ih =>
    intro seen r h
    obtain ⟨node, underBtn⟩ := p
    unfold extractLoop at h
    cases hl : resolveLink node with
    | none => simp only [hl] at h; exact ih h
    | some link =>
      simp only [hl] at h
      cases hh : getHref link with
      | none => simp only [hh] at h; exact ih h
      | some href =>
        simp only [hh] at h
        by_cases hc : seen.contains (urljoin base href) = true
        · rw [if_pos hc] at h; exact ih h
        · rw [if_neg hc] at h
          cases ht : extract_title underBtn node link with
          | none => simp only [ht] at h; exact ih h
          | some title =>
            simp only [ht] at h
            rcases List.mem_cons.mp h with h2 | h2
            · subst h2
              exact ⟨underBtn, node, link, ht⟩
            · exact ih h2

/-- The assembly loop equals per-container candidate extraction followed by
first-wins URL deduplication: the seen set is consulted before and updated
only upon emission, so containers that fail title recovery reserve no URL. -/
theorem extractLoop_eq_dedup (base : String) :
    ∀ (nodes : List (Node × Bool)) (seen : List String),
      extractLoop base nodes seen = dedupByUrl seen (caseCandidates base nodes) := by
  intro nodes
  induction nodes with
  | nil => intro seen; rfl
  | cons p rest ih =>
    intro seen
    obtain ⟨node, underBtn⟩ := p
    unfold extractLoop caseCandidates
    cases hl : resolveLink node with
    | none => dsimp only; exact ih seen
    | some link =>
      dsimp only
      cases hh : getHref link with
      | none => dsimp only; exact ih seen
      | some href =>
        dsimp only
        cases ht : extract_title underBtn node link with
        | none =>
          dsimp only
          by_cases hc : seen.contains (urljoin base href) = true
          · rw [if_pos hc]; exact ih seen
          · rw [if_neg hc]; exact ih seen
        | some title =>
          dsimp only
          by_cases hc : seen.contains (urljoin base href) = true
          · simp only [dedupByUrl]
            rw [if_pos hc, if_pos hc]
            exact ih seen
          · simp only [dedupByUrl]
            rw [if_neg hc, if_neg hc]
            exact congrArg _ (ih _)

/-- A URL kept by deduplication was not in the initial seen set. -/
theorem dedup_not_mem_seen :
    ∀ (rs : List CaseRec) (seen : List String) (u : String),
      u ∈ (dedupByUrl seen rs).map CaseRec.url → seen.contains u = false := by
  intro rs
  induction rs with
  | nil => intro seen u h; simp [dedupByUrl] at h
  | cons r rest ih =>
    intro seen u h
    by_cases hc : seen.contains r.url = true
    · rw [dedupByUrl, if_pos hc] at h
      exact ih seen u h
    · rw [dedupByUrl, if_neg hc] at h
      rw [List.map_cons] at h
      rcases List.mem_cons.mp h with h2 | h2
      · subst h2
        exact Bool.not_eq_true _ ▸ hc
      · have h3 := ih (r.url :: seen) u h2
        rw [List.contains_cons] at h3
        exact (Bool.or_eq_false_iff.mp h3).2

/-- Deduplicated records have pairwise distinct URLs. -/
theorem dedup_nodup :
    ∀ (rs : List CaseRec) (seen : List String),
      ((dedupByUrl seen rs).map CaseRec.url).Nodup := by
  intro rs
  induction rs with
  | nil => intro seen; simp [dedupByUrl]
  | cons r rest ih =>
    intro seen
    by_cases hc : seen.contains r.url = true
    · rw [dedupByUrl, if_pos hc]
      exact ih seen
    · rw [dedupByUrl, if_neg hc, List.map_cons]
      refine List.nodup_cons.mpr ⟨?_, ih _⟩
      intro hmem
      have h3 := dedup_not_mem_seen rest (r.url :: seen) r.url hmem
      rw [List.contains_cons] at h3
      have := (Bool.or_eq_false_iff.mp h3).1
      simp at this

/-! ## The claims -/

/-- Claim C1, counterexample.  The claim asserts that a container whose only
title-like text is `Learn more` (no heading or microdata) yields no record
because the blocklist rejects the title.  In the code the blocklist
`GENERIC_TITLE_STRINGS` holds only Russian phrases, so `Learn more` is
accepted by `_normalize_title_text` and the record is emitted: the claim is
false on this document. -/
theorem claim_C1_counterexample :
    extract_cases learnMoreDoc DEFAULT_BASE_URL
      = [{ title := "Learn more", url := "https://ads.vk.com/cases/demo",
           published_at := none }]
    ∧ extract_cases learnMoreDoc DEFAULT_BASE_URL ≠ [] :=
  ⟨rfl, by decide⟩

/-- Claim C1, amended.  For a container whose only title-like text is the
blocklisted Russian phrase `Узнать больше` (the blocklist's counterpart of
`Learn more`) and no heading or microdata present, `extract_cases` emits no
record: the title is rejected by the case-insensitive generic-phrase
blocklist, so the whole record is dropped.  The last two conjuncts exhibit
the case-insensitive rejection itself. -/
theorem claim_C1_amended :
    extract_cases uznatDoc DEFAULT_BASE_URL = []
    ∧ normalize_title_text (some "Узнать больше") = none
    ∧ normalize_title_text (some "узнать больше") = none :=
  ⟨rfl, rfl, rfl⟩

/-- Claim C2: whenever the cleaned input begins with the `YYYY-MM-DD` digit
pattern, `normalize_date` returns exactly the captured groups joined by
hyphens, with no calendar validation (second conjunct: trailing content is
allowed; third conjunct: the impossible date `9999-99-99` is re-emitted). -/
theorem claim_C2 :
    (∀ (s r : String), isoMatch (cleanText s.data) = some r → normalize_date s = some r)
    ∧ normalize_date "2024-03-01 extra text" = some "2024-03-01"
    ∧ normalize_date "9999-99-99" = some "9999-99-99" := by
  refine ⟨?_, rfl, rfl⟩
  intro s r h
  have hne : s.data.isEmpty = false := by
    cases hd : s.data with
    | nil => rw [hd] at h; exact absurd h (by simp [cleanText, stripBoth, isoMatch])
    | cons a l => simp
  have hv : (cleanText s.data).isEmpty = false := by
    cases hc : cleanText s.data with
    | nil => rw [hc] at h; exact absurd h (by simp [isoMatch])
    | cons a l => simp
  unfold normalize_date
  rw [hne, hv, h]
  rfl

/-- Claim C2, witness: the ISO prefix of `2024-03-01 extra text` is matched
and the theorem yields the scenario-A result. -/
theorem claim_C2_witness :
    isoMatch (cleanText ("2024-03-01 extra text" : String).data) = some "2024-03-01"
    ∧ normalize_date "2024-03-01 extra text" = some "2024-03-01" :=
  ⟨rfl, claim_C2.1 "2024-03-01 extra text" "2024-03-01" rfl⟩

/-- Claim C3: an input whose cleaned form structurally matches the leading
dotted/slashed grammar is calendar-validated; validation failure yields no
result — never an exception and never a retry with the Russian textual
grammar (the result is `none` outright, the later grammar is not consulted;
the structural dotted match also excludes a prior ISO match, proved via
`iso_none_of_dot`).  Scenario B: `17.12.2025` parses, `31.02.2020` fails. -/
theorem claim_C3 :
    (∀ (s : String) (d m y : Nat), dotMatch (cleanText s.data) = some (d, m, y) →
      normalize_date s = if isValidDate y m d then some (formatDate y m d) else none)
    ∧ normalize_date "17.12.2025" = some "2025-12-17"
    ∧ normalize_date "31.02.2020" = none := by
  refine ⟨?_, rfl, rfl⟩
  intro s d m y h
  have hne : s.data.isEmpty = false := by
    cases hd : s.data with
    | nil => rw [hd] at h; exact absurd h (by simp [cleanText, stripBoth, dotMatch, parseD12])
    | cons a l => simp
  have hv : (cleanText s.data).isEmpty = false := by
    cases hc : cleanText s.data with
    | nil => rw [hc] at h; exact absurd h (by simp [dotMatch, parseD12])
    | cons a l => simp
  unfold normalize_date
  rw [hne, hv, iso_none_of_dot h, h]
  rfl

/-- Claim C3, witness: `17.12.2025` structurally matches the dotted grammar
and the theorem yields its validated result. -/
theorem claim_C3_witness :
    dotMatch (cleanText ("17.12.2025" : String).data) = some (17, 12, 2025)
    ∧ normalize_date "17.12.2025"
        = (if isValidDate 2025 12 17 then some (formatDate 2025 12 17) else none) :=
  ⟨rfl, claim_C3.1 "17.12.2025" 17 12 2025 rfl⟩

/-- Claim C4: for Russian textual dates the month word is normalised
(lowercased, `ё` to `е`, trailing dots stripped) and looked up in the month
table; an unrecognised word yields no result, a recognised one is
calendar-validated and emitted.  The three conjuncts are scenario C. -/
theorem claim_C4 :
    (∀ (s : String) (d y : Nat) (w : List Char),
      isoMatch (cleanText s.data) = none →
      dotMatch (cleanText s.data) = none →
      ruSearch (cleanText s.data) = some (d, w, y) →
      normalize_date s =
        match MONTHS_RU (String.mk (normalize_month_token w)) with
        | some m => if isValidDate y m d then some (formatDate y m d) else none
        | none => none)
    ∧ normalize_date "5 сентября 2024" = some "2024-09-05"
    ∧ normalize_date "12 сент. 2024 г." = some "2024-09-12"
    ∧ normalize_date "8 февраля 2023 года" = some "2023-02-08" := by
  refine ⟨?_, rfl, rfl, rfl⟩
  intro s d y w hiso hdot h
  have hne : s.data.isEmpty = false := by
    cases hd : s.data with
    | nil => rw [hd] at h; exact absurd h (by simp [cleanText, stripBoth, ruSearch])
    | cons a l => simp
  have hv : (cleanText s.data).isEmpty = false := by
    cases hc : cleanText s.data with
    | nil => rw [hc] at h; exact absurd h (by simp [ruSearch])
    | cons a l => simp
  unfold normalize_date
  rw [hne, hv, hiso, hdot, h]
  rfl

/-- Claim C4, witness: `5 сентября 2024` reaches the Russian grammar, whose
captured word `сентября` is found in the month table. -/
theorem claim_C4_witness :
    ruSearch (cleanText ("5 сентября 2024" : String).data)
        = some (5, ("сентября" : String).data, 2024)
    ∧ normalize_date "5 сентября 2024"
        = (match MONTHS_RU (String.mk (normalize_month_token ("сентября" : String).data)) with
           | some m => if isValidDate 2024 m 5 then some (formatDate 2024 m 5) else none
           | none => none) :=
  ⟨rfl, claim_C4.1 "5 сентября 2024" 5 2024 ("сентября" : String).data rfl rfl rfl⟩

/-- Claim C5, counterexample.  The claim asserts that among several
containers resolving to the same absolute URL only the first-encountered one
yields a record and later duplicates are dropped.  But the URL is reserved
only when a record is emitted: here both located cards resolve to the same
URL, the first yields no record at all (its only heading is blocklisted),
and it is the LATER duplicate that produces the output record. -/
theorem claim_C5_counterexample :
    (find_case_nodes (forest [dupCard1, dupCard2])).length = 2
    ∧ extract_cases (forest [dupCard1]) DEFAULT_BASE_URL = []
    ∧ extract_cases (forest [dupCard1, dupCard2]) DEFAULT_BASE_URL
        = [{ title := "Настоящий кейс", url := "https://ads.vk.com/cases/x",
             published_at := none }] :=
  ⟨rfl, rfl, rfl⟩

/-- Claim C5, amended: `url` values of one extraction run are pairwise
distinct, and the output equals first-wins URL deduplication of the
per-container candidate records (so the URL is claimed by the first container
from which a record is actually emitted — a container that resolves a URL but
recovers no title does not reserve it — and output order is the document
order of the emitting containers). -/
theorem claim_C5_amended : ∀ (doc : NodeList) (base : String),
    ((extract_cases doc base).map CaseRec.url).Nodup
    ∧ extract_cases doc base = dedupByUrl [] (caseCandidates base (find_case_nodes doc)) := by
  intro doc base
  have he : extract_cases doc base = dedupByUrl [] (caseCandidates base (find_case_nodes doc)) :=
    extractLoop_eq_dedup base (find_case_nodes doc) []
  refine ⟨?_, he⟩
  rw [he]
  exact dedup_nodup _ _

/-- Claim C6: every emitted record has a non-empty title whose lowercase form
is not a blocklisted phrase; a missing date is tolerated (the second conjunct
exhibits an emitted record with `published_at = none`), a missing title never
is. -/
theorem claim_C6 :
    (∀ (doc : NodeList) (base : String) (r : CaseRec), r ∈ extract_cases doc base →
      r.title ≠ "" ∧ GENERIC_TITLE_STRINGS.contains (String.mk (pyLower r.title.data)) = false)
    ∧ extract_cases sampleDoc DEFAULT_BASE_URL
        = [{ title := "Сборный кейс", url := "https://ads.vk.com/cases/example-case",
             published_at := none }] := by
  constructor
  · intro doc base r hr
    obtain ⟨u, c, l, ht⟩ := mem_extractLoop_title hr
    obtain ⟨v, hv⟩ := extract_title_ok ht
    exact normalize_title_ok hv
  · rfl

/-- Claim C6, witness: the record emitted from `sampleDoc` satisfies the
title invariant. -/
theorem claim_C6_witness :
    ("Сборный кейс" : String) ≠ ""
    ∧ GENERIC_TITLE_STRINGS.contains
        (String.mk (pyLower ("Сборный кейс" : String).data)) = false :=
  claim_C6.1 sampleDoc DEFAULT_BASE_URL
    { title := "Сборный кейс", url := "https://ads.vk.com/cases/example-case",
      published_at := none }
    (by rw [claim_C6.2]; exact List.mem_singleton.mpr rfl)

/-- Claim C7: the card locator tries its fixed selector cascade in order and
returns exactly the matches of the first selector with at least one match,
never merging; when no selector matches it returns the empty sequence and
`extract_cases` returns the empty list rather than an error. -/
theorem claim_C7 : ∀ (doc : NodeList) (base : String),
    (selectDoc (Selector.attrEq "data-testid" "case-card") doc ≠ [] →
      find_case_nodes doc = selectDoc (Selector.attrEq "data-testid" "case-card") doc)
    ∧ (selectDoc (Selector.attrEq "data-testid" "case-card") doc = [] →
        selectDoc (Selector.classToken "CaseCard") doc ≠ [] →
        find_case_nodes doc = selectDoc (Selector.classToken "CaseCard") doc)
    ∧ (selectDoc (Selector.attrEq "data-testid" "case-card") doc = [] →
        selectDoc (Selector.classToken "CaseCard") doc = [] →
        find_case_nodes doc = selectDoc (Selector.tagAttrContains "a" "href" "/cases/") doc)
    ∧ (selectDoc (Selector.attrEq "data-testid" "case-card") doc = [] →
        selectDoc (Selector.classToken "CaseCard") doc = [] →
        selectDoc (Selector.tagAttrContains "a" "href" "/cases/") doc = [] →
        find_case_nodes doc = [] ∧ extract_cases doc base = []) := by
  intro doc base
  refine ⟨?_, ?_, ?_, ?_⟩
  · intro h1
    simp only [find_case_nodes, caseSelectors, firstNonemptySelect]
    rw [if_neg (by rw [List.isEmpty_eq_false.mpr h1]; exact Bool.false_ne_true)]
  · intro h1 h2
    simp only [find_case_nodes, caseSelectors, firstNonemptySelect]
    rw [if_pos (by rw [h1]; rfl),
      if_neg (by rw [List.isEmpty_eq_false.mpr h2]; exact Bool.false_ne_true)]
  · intro h1 h2
    simp only [find_case_nodes, caseSelectors, firstNonemptySelect]
    rw [if_pos (by rw [h1]; rfl), if_pos (by rw [h2]; rfl)]
    by_cases h3 : (selectDoc (Selector.tagAttrContains "a" "href" "/cases/") doc).isEmpty = true
    · rw [if_pos h3]
      exact (List.isEmpty_iff.mp h3).symm
    · rw [if_neg h3]
  · intro h1 h2 h3
    have hfind : find_case_nodes doc = [] := by
      simp only [find_case_nodes, caseSelectors, firstNonemptySelect]
      rw [if_pos (by rw [h1]; rfl), if_pos (by rw [h2]; rfl), if_pos (by rw [h3]; rfl)]
    exact ⟨hfind, by unfold extract_cases; rw [hfind]; rfl⟩

/-- Claim C7, witness: on `classDoc` the first selector misses and the second
wins, and on the empty document nothing matches and extraction yields `[]`. -/
theorem claim_C7_witness :
    find_case_nodes classDoc = selectDoc (Selector.classToken "CaseCard") classDoc
    ∧ extract_cases NodeList.nil DEFAULT_BASE_URL = [] :=
  ⟨(claim_C7 classDoc DEFAULT_BASE_URL).2.1 rfl (List.cons_ne_nil _ _),
   ((claim_C7 NodeList.nil DEFAULT_BASE_URL).2.2.2 rfl rfl rfl).2⟩

/-- Claim C8: formatting any valid calendar date as zero-padded `YYYY-MM-DD`
and applying `normalize_date` returns the same string unchanged (it is
cleaned to itself and re-emitted by the ISO-prefix grammar). -/
theorem claim_C8 :
    ∀ (y m d : Nat), isValidDate y m d = true →
      normalize_date (formatDate y m d) = some (formatDate y m d) := by
  intro y m d _
  have hclean : cleanText (formatDate y m d).data = (formatDate y m d).data :=
    cleanText_eq_self (formatDate_chars_good y m d)
  have hiso : isoMatch (formatDate y m d).data = some (formatDate y m d) := by
    show isoMatch (pad4 y ++ '-' :: pad2 m ++ '-' :: pad2 d) = _
    simp only [pad4, pad2]
    simp [isoMatch, (digitChar_good _).1, formatDate, pad4, pad2]
  have hne : (formatDate y m d).data.isEmpty = false := by
    simp [formatDate, pad4, pad2]
  unfold normalize_date
  rw [hne, hclean, hne, hiso]
  rfl

/-- Claim C8, witness: round trip at 2024-03-01. -/
theorem claim_C8_witness :
    isValidDate 2024 3 1 = true
    ∧ normalize_date (formatDate 2024 3 1) = some (formatDate 2024 3 1) :=
  ⟨rfl, claim_C8 2024 3 1 rfl⟩

/-- Claim C9: extraction is deterministic — the embedded extractor is a pure
function of the document and the base URL, so two runs on the same inputs
yield identical output sequences. -/
theorem claim_C9 : ∀ (doc : NodeList) (base : String),
    extract_cases doc base = extract_cases doc base :=
  fun _ _ => rfl

/-- Claim C10: the Russian textual grammar is matched anywhere in the cleaned
input, not only at its start (first conjunct, with arbitrary leading text)
and not anchored at a word boundary (second conjunct: the day digit directly
follows a Cyrillic word character, where a word boundary would be absent). -/
theorem claim_C10 :
    normalize_date "Опубликовано 5 сентября 2024" = some "2024-09-05"
    ∧ normalize_date "кейс5 сентября 2024" = some "2024-09-05" :=
  ⟨rfl, rfl⟩
